import Mathlib

/-!
Verification of `mvolkmann/rust-error-handling` (src/src/main.rs).

The program reads a JSON file into a string, deserializes it into a
`Vec<Dog>` (a struct with `name` and `breed` string fields, via serde
derive), and compares three error-propagation styles:

* `get_dogs1` returns `Result<Vec<Dog>, Box<dyn Error>>` (the boxed error
  is modelled as a sum of the two concrete error types);
* `get_dogs2` returns `Result<Vec<Dog>, GetDogsError>` built by explicit
  `match`ing;
* `get_dogs3` returns the same type, using `?` with the two `From`
  conversions.

The file system is modelled as a function from paths to either the file
contents or an I/O error, so `std::fs::read_to_string` is simply an
application of that function.  serde_json's `from_str::<Vec<Dog>>` is
modelled in two stages, exactly as serde factors it: a textual JSON
parser producing a `Json` value, then the derived `Deserialize` impl for
`Dog` mapped over the array.  The derived impl is modelled with serde's
documented semantics: fields may come in any order, unknown fields are
ignored, a duplicate known field is an error, a missing field is an
error, and a known field with a non-string value is an error.  Error
values carry only their message text (line/column positions of
serde_json messages are not modelled); JSON numbers are modelled as
integers, which no claim depends on.
-/

/-- Model of `std::io::Error`: only its display text matters here. -/
structure IoError where
  message : String
deriving DecidableEq, Repr

/-- Model of `serde_json::error::Error`: only its display text matters here. -/
structure JsonError where
  message : String
deriving DecidableEq, Repr

/-- The file system seen by `read_to_string`: a path either has readable
contents or produces an I/O error (missing file, permissions, ...). -/
def FileSystem : Type := String → Except IoError String

/-- Model of `std::fs::read_to_string`. -/
def read_to_string (fs : FileSystem) (file_path : String) : Except IoError String :=
  fs file_path

/-- JSON values, as produced by serde_json's parser.  Numbers are
modelled as integers. -/
inductive Json where
  | null : Json
  | bool : Bool → Json
  | num : Int → Json
  | str : String → Json
  | arr : List Json → Json
  | obj : List (String × Json) → Json

/-- The `Dog` struct from the source: two string fields. -/
structure Dog where
  name : String
  breed : String
deriving DecidableEq, Repr

/-- The custom error enum `GetDogsError` with its two variants. -/
inductive GetDogsError where
  | BadFile : IoError → GetDogsError
  | BadJson : JsonError → GetDogsError
deriving DecidableEq, Repr

open GetDogsError

/-- `impl From<std::io::Error> for GetDogsError`. -/
def GetDogsError.fromIo (other : IoError) : GetDogsError := BadFile other

/-- `impl From<serde_json::error::Error> for GetDogsError`. -/
def GetDogsError.fromJsonError (other : JsonError) : GetDogsError := BadJson other

/-- `Box<dyn Error>` as it occurs in `get_dogs1`: the two concrete error
types that can be boxed there, as a sum. -/
def BoxedError : Type := Sum IoError JsonError

/-- The `source` method of `impl Error for GetDogsError`: returns the
wrapped lower-level error (as a trait object, modelled by the sum). -/
def GetDogsError.source : GetDogsError → Option BoxedError
  | BadFile e => some (Sum.inl e)
  | BadJson e => some (Sum.inr e)

/-- `impl Display for GetDogsError`. -/
def GetDogsError.display : GetDogsError → String
  | BadFile e => "bad file: " ++ e.message
  | BadJson e => "bad JSON: " ++ e.message

/-! ### The derived `Deserialize` impl for `Dog`

serde's derived visitor walks the object's fields in order, keeping an
optional slot per known field: a known field must hold a string and may
appear only once, unknown fields are skipped, and at the end both slots
must be filled. -/

/-- Field loop of the derived `Deserialize` impl for `Dog`.
`nameSlot`/`breedSlot` hold already-seen values of the known fields. -/
def readDogFields : List (String × Json) → Option String → Option String →
    Except JsonError Dog
  | [], some n, some b => .ok ⟨n, b⟩
  | [], none, _ => .error ⟨"missing field `name`"⟩
  | [], some _, none => .error ⟨"missing field `breed`"⟩
  | (k, v) :: rest, nameSlot, breedSlot =>
    if k = "name" then
      match nameSlot with
      | some _ => .error ⟨"duplicate field `name`"⟩
      | none =>
        match v with
        | .str s => readDogFields rest (some s) breedSlot
        | _ => .error ⟨"invalid type: expected a string for field `name`"⟩
    else if k = "breed" then
      match breedSlot with
      | some _ => .error ⟨"duplicate field `breed`"⟩
      | none =>
        match v with
        | .str s => readDogFields rest nameSlot (some s)
        | _ => .error ⟨"invalid type: expected a string for field `breed`"⟩
    else
      readDogFields rest nameSlot breedSlot

/-- Derived `Deserialize` for `Dog`: only a JSON object is accepted. -/
def dogFromJson : Json → Except JsonError Dog
  | .obj fields => readDogFields fields none none
  | _ => .error ⟨"invalid type: expected struct Dog"⟩

/-- Element loop of `Deserialize` for `Vec<Dog>`: each element in turn,
stopping at the first failure. -/
def dogListFromJson : List Json → Except JsonError (List Dog)
  | [] => .ok []
  | j :: rest =>
    match dogFromJson j with
    | .error e => .error e
    | .ok d =>
      match dogListFromJson rest with
      | .error e => .error e
      | .ok ds => .ok (d :: ds)

/-- `Deserialize` for `Vec<Dog>`: a JSON array, each element a `Dog`. -/
def dogsFromJson : Json → Except JsonError (List Dog)
  | .arr items => dogListFromJson items
  | _ => .error ⟨"invalid type: expected a sequence"⟩

/-- Derived `Serialize` for `Dog`: fields in declaration order. -/
def dogToJson (d : Dog) : Json :=
  .obj [("name", .str d.name), ("breed", .str d.breed)]

/-- `Serialize` for `Vec<Dog>`. -/
def dogsToJson (dogs : List Dog) : Json :=
  .arr (dogs.map dogToJson)

/-! ### The textual JSON parser (serde_json's front end)

A conventional recursive-descent parser over the character list, with a
fuel argument for termination.  Fuel exhaustion only loses completeness
on absurdly nested inputs; every theorem below that needs the parser
takes its result as a hypothesis, and witnesses evaluate it on concrete
strings. -/

/-- JSON whitespace. -/
def isJsonWs (c : Char) : Bool :=
  c = ' ' || c = '\n' || c = '\t' || c = '\r'

/-- Skip leading whitespace. -/
def skipWs : List Char → List Char
  | [] => []
  | c :: rest => if isJsonWs c then skipWs rest else c :: rest

/-- Decode the four hex digits of a `\uXXXX` escape. -/
def hexVal (c : Char) : Option Nat :=
  if '0' ≤ c ∧ c ≤ '9' then some (c.toNat - '0'.toNat)
  else if 'a' ≤ c ∧ c ≤ 'f' then some (c.toNat - 'a'.toNat + 10)
  else if 'A' ≤ c ∧ c ≤ 'F' then some (c.toNat - 'A'.toNat + 10)
  else none

/-- Decode a single-character escape (everything but `\u`). -/
def escDecode (e : Char) : Option Char :=
  if e = '"' then some '"'
  else if e = '\\' then some '\\'
  else if e = '/' then some '/'
  else if e = 'n' then some '\n'
  else if e = 't' then some '\t'
  else if e = 'r' then some '\r'
  else if e = 'b' then some (Char.ofNat 8)
  else if e = 'f' then some (Char.ofNat 12)
  else none

mutual

/-- Read the body of a JSON string literal (the opening quote already
consumed); returns the decoded characters and the rest of the input. -/
def takeString : List Char → Except JsonError (List Char × List Char)
  | [] => .error ⟨"EOF while parsing a string"⟩
  | c :: rest =>
    if c = '"' then .ok ([], rest)
    else if c = '\\' then takeEscape rest
    else
      match takeString rest with
      | .ok (cs, rem) => .ok (c :: cs, rem)
      | .error e => .error e

/-- Read what follows a backslash inside a string literal. -/
def takeEscape : List Char → Except JsonError (List Char × List Char)
  | [] => .error ⟨"EOF while parsing a string"⟩
  | e :: rest =>
    if e = 'u' then
      match rest with
      | h1 :: h2 :: h3 :: h4 :: rest' =>
        match hexVal h1, hexVal h2, hexVal h3, hexVal h4 with
        | some a, some b, some c, some d =>
          let n := ((a * 16 + b) * 16 + c) * 16 + d
          if n < 0xd800 ∨ (0xe000 ≤ n ∧ n < 0x110000) then
            match takeString rest' with
            | .ok (cs, rem) => .ok (Char.ofNat n :: cs, rem)
            | .error e => .error e
          else .error ⟨"invalid unicode code point"⟩
        | _, _, _, _ => .error ⟨"invalid escape"⟩
      | _ => .error ⟨"EOF while parsing a string"⟩
    else
      match escDecode e with
      | some c =>
        match takeString rest with
        | .ok (cs, rem) => .ok (c :: cs, rem)
        | .error e => .error e
      | none => .error ⟨"invalid escape"⟩

end

/-- Longest prefix of decimal digits. -/
def takeDigits : List Char → List Char × List Char
  | [] => ([], [])
  | c :: rest =>
    if c.isDigit then
      let (ds, rem) := takeDigits rest
      (c :: ds, rem)
    else ([], c :: rest)

/-- Digits to a natural number. -/
def digitsToNat (ds : List Char) : Nat :=
  ds.foldl (fun acc c => acc * 10 + (c.toNat - '0'.toNat)) 0

mutual

/-- Parse one JSON value from the input (fuelled). -/
def parseValue : Nat → List Char → Except JsonError (Json × List Char)
  | 0, _ => .error ⟨"recursion limit exceeded"⟩
  | fuel + 1, input =>
    match skipWs input with
    | [] => .error ⟨"EOF while parsing a value"⟩
    | c :: rest =>
      if c = 'n' then
        match rest with
        | 'u' :: 'l' :: 'l' :: rem => .ok (.null, rem)
        | _ => .error ⟨"expected ident"⟩
      else if c = 't' then
        match rest with
        | 'r' :: 'u' :: 'e' :: rem => .ok (.bool true, rem)
        | _ => .error ⟨"expected ident"⟩
      else if c = 'f' then
        match rest with
        | 'a' :: 'l' :: 's' :: 'e' :: rem => .ok (.bool false, rem)
        | _ => .error ⟨"expected ident"⟩
      else if c = '"' then
        match takeString rest with
        | .ok (cs, rem) => .ok (.str (String.mk cs), rem)
        | .error e => .error e
      else if c = '-' then
        match takeDigits rest with
        | ([], _) => .error ⟨"expected value"⟩
        | (ds, rem) => .ok (.num (-(digitsToNat ds : Int)), rem)
      else if c.isDigit then
        let (ds, rem) := takeDigits (c :: rest)
        .ok (.num (digitsToNat ds : Int), rem)
      else if c = '\x5b' then
        match skipWs rest with
        | '\x5d' :: rem => .ok (.arr [], rem)
        | rest' =>
          match parseElements fuel rest' with
          | .ok (items, rem) => .ok (.arr items, rem)
          | .error e => .error e
      else if c = '\x7b' then
        match skipWs rest with
        | '\x7d' :: rem => .ok (.obj [], rem)
        | rest' =>
          match parseMembers fuel rest' with
          | .ok (fields, rem) => .ok (.obj fields, rem)
          | .error e => .error e
      else .error ⟨"expected value"⟩

/-- Parse the comma-separated elements of a non-empty array, up to and
including the closing bracket. -/
def parseElements : Nat → List Char → Except JsonError (List Json × List Char)
  | 0, _ => .error ⟨"recursion limit exceeded"⟩
  | fuel + 1, input =>
    match parseValue fuel input with
    | .error e => .error e
    | .ok (v, rest) =>
      match skipWs rest with
      | ',' :: rest' =>
        match parseElements fuel rest' with
        | .ok (items, rem) => .ok (v :: items, rem)
        | .error e => .error e
      | '\x5d' :: rem => .ok ([v], rem)
      | _ => .error ⟨"expected comma or bracket"⟩

/-- Parse the members of a non-empty object, up to and including the
closing brace. -/
def parseMembers : Nat → List Char →
    Except JsonError (List (String × Json) × List Char)
  | 0, _ => .error ⟨"recursion limit exceeded"⟩
  | fuel + 1, input =>
    match skipWs input with
    | '"' :: rest =>
      match takeString rest with
      | .error e => .error e
      | .ok (key, rest') =>
        match skipWs rest' with
        | ':' :: rest'' =>
          match parseValue fuel rest'' with
          | .error e => .error e
          | .ok (v, rest3) =>
            match skipWs rest3 with
            | ',' :: rest4 =>
              match parseMembers fuel rest4 with
              | .ok (fields, rem) => .ok ((String.mk key, v) :: fields, rem)
              | .error e => .error e
            | '\x7d' :: rem => .ok ([(String.mk key, v)], rem)
            | _ => .error ⟨"expected comma or brace"⟩
        | _ => .error ⟨"expected colon"⟩
    | _ => .error ⟨"key must be a string"⟩

end

/-- Model of `serde_json::from_str::<Vec<Dog>>`: parse the text to a
JSON value (the whole input must be consumed), then run the derived
deserializer. -/
def parseJson (s : String) : Except JsonError Json :=
  match parseValue (2 * s.length + 8) s.data with
  | .error e => .error e
  | .ok (v, rest) =>
    match skipWs rest with
    | [] => .ok v
    | _ => .error ⟨"trailing characters"⟩

/-- `serde_json::from_str::<Vec<Dog>>(&json)`. -/
def from_str (s : String) : Except JsonError (List Dog) :=
  match parseJson s with
  | .ok v => dogsFromJson v
  | .error e => .error e

/-! ### The three `get_dogs` variants and `main` -/

/-- `get_dogs1`: `?` boxes whichever error occurs into `Box<dyn Error>`. -/
def get_dogs1 (fs : FileSystem) (file_path : String) :
    Except BoxedError (List Dog) :=
  match read_to_string fs file_path with
  | .error e => .error (Sum.inl e)
  | .ok json =>
    match from_str json with
    | .error e => .error (Sum.inr e)
    | .ok dogs => .ok dogs

/-- `get_dogs2`: explicit `match`es wrapping each error in its
`GetDogsError` variant. -/
def get_dogs2 (fs : FileSystem) (file_path : String) :
    Except GetDogsError (List Dog) :=
  match read_to_string fs file_path with
  | .ok json =>
    match from_str json with
    | .ok dogs => .ok dogs
    | .error e => .error (BadJson e)
  | .error e => .error (BadFile e)

/-- `get_dogs3`: `?` with the `From` conversions applied to each error. -/
def get_dogs3 (fs : FileSystem) (file_path : String) :
    Except GetDogsError (List Dog) :=
  match read_to_string fs file_path with
  | .error e => .error (GetDogsError.fromIo e)
  | .ok json =>
    match from_str json with
    | .error e => .error (GetDogsError.fromJsonError e)
    | .ok dogs => .ok dogs

/-- Rust's `Debug` rendering of one `Dog`
(`Dog { name: "...", breed: "..." }`; `Debug` escaping of special
characters inside the strings is not modelled). -/
def dogDebug (d : Dog) : String :=
  "Dog \x7b name: \"" ++ d.name ++ "\", breed: \"" ++ d.breed ++ "\" \x7d"

/-- Rust's `Debug` rendering of a `Vec<Dog>`. -/
def dogsDebug (dogs : List Dog) : String :=
  "[" ++ String.intercalate ", " (dogs.map dogDebug) ++ "]"

/-- The observable events of one run of `main`. -/
inductive Event where
  | readFile : String → Event
  | parseAttempt : Event
  | printStdout : String → Event
  | printStderr : String → Event
  | panicked : Event
deriving DecidableEq, Repr

/-- The hardcoded path used by `main`. -/
def mainPath : String := "./dogs.json"

/-- The event trace of `main`: read `./dogs.json`; on success attempt
the parse; print the dogs on stdout, or exactly one message on stderr
(note `main` prints `"bad json: "`, lowercase, not the `Display` text). -/
def mainTrace (fs : FileSystem) : List Event :=
  Event.readFile mainPath ::
    match read_to_string fs mainPath with
    | .error e => [Event.printStderr ("bad file: " ++ e.message)]
    | .ok json =>
      Event.parseAttempt ::
        match from_str json with
        | .error e => [Event.printStderr ("bad json: " ++ e.message)]
        | .ok dogs => [Event.printStdout (dogsDebug dogs)]

/-- The messages `main` prints on standard error. -/
def stderrList (fs : FileSystem) : List String :=
  (mainTrace fs).filterMap fun ev =>
    match ev with
    | Event.printStderr s => some s
    | _ => none

/-- The lines `main` prints on standard output. -/
def stdoutList (fs : FileSystem) : List String :=
  (mainTrace fs).filterMap fun ev =>
    match ev with
    | Event.printStdout s => some s
    | _ => none

/-! ### Auxiliary definitions used to state the properties -/

/-- Strip the classification from a `GetDogsError`, leaving the boxed
lower-level error exactly as `get_dogs1` would have returned it. -/
def GetDogsError.boxed : GetDogsError → BoxedError
  | BadFile e => Sum.inl e
  | BadJson e => Sum.inr e

/-- First value bound to key `k`, as JSON object lookup. -/
def lookupField (k : String) : List (String × Json) → Option Json
  | [] => none
  | (k', v) :: rest => if k' = k then some v else lookupField k rest

/-- The value of field `k` of a JSON object. -/
def fieldValue (k : String) : Json → Option Json
  | .obj fields => lookupField k fields
  | _ => none

/-- A JSON value that deserializes to a `Dog` per the spec's schema: an
object with no repeated keys whose `name` and `breed` fields are
strings. -/
def WellFormedDogObj (j : Json) : Prop :=
  ∃ fields n b, j = Json.obj fields ∧ (fields.map Prod.fst).Nodup ∧
    lookupField "name" fields = some (.str n) ∧
    lookupField "breed" fields = some (.str b)

/-- State of one slot of `readDogFields`: either the field was already
consumed with value `val` and does not reappear, or it is still ahead
with value `val`. -/
def SlotSpec (key : String) (slot : Option String)
    (fields : List (String × Json)) (val : String) : Prop :=
  (slot = some val ∧ key ∉ fields.map Prod.fst) ∨
    (slot = none ∧ lookupField key fields = some (.str val))

/-- A parsed `Dog` matches its JSON object: the object's `name` and
`breed` fields hold exactly the record's strings. -/
def DogMatches (j : Json) (d : Dog) : Prop :=
  fieldValue "name" j = some (.str d.name) ∧
    fieldValue "breed" j = some (.str d.breed)

/-- The file paths `main` reads, in order. -/
def readList (fs : FileSystem) : List String :=
  (mainTrace fs).filterMap fun ev =>
    match ev with
    | Event.readFile p => some p
    | _ => none

/-- How many parse attempts `main` makes. -/
def parseAttempts (fs : FileSystem) : Nat :=
  ((mainTrace fs).filter fun ev =>
    match ev with
    | Event.parseAttempt => true
    | _ => false).length

/-- A file system with no readable file at all (every read gives the
`NotFound` I/O error text). -/
def fsMissing : FileSystem :=
  fun _ => .error ⟨"No such file or directory (os error 2)"⟩

/-- A file system where `./dogs.json` holds text that is not JSON. -/
def fsBadJson : FileSystem :=
  fun p => if p = mainPath then .ok "oops"
    else .error ⟨"No such file or directory (os error 2)"⟩

/-- A well-formed dogs file. -/
def goodJsonText : String :=
  "[\x7b\"name\":\"Rex\",\"breed\":\"Lab\"\x7d]"

/-- A file system where `./dogs.json` holds `goodJsonText`. -/
def fsGood : FileSystem :=
  fun p => if p = mainPath then .ok goodJsonText
    else .error ⟨"No such file or directory (os error 2)"⟩

/-- A file system where `./dogs.json` holds a JSON array whose object
lacks the `breed` field. -/
def fsMissingField : FileSystem :=
  fun p => if p = mainPath then .ok "[\x7b\"name\":\"Rex\"\x7d]"
    else .error ⟨"No such file or directory (os error 2)"⟩

/-! ### The serializer (serde_json's compact `to_string`)

serde_json's writer emits `Vec<Dog>` as `[{"name":"…","breed":"…"},…]`
with no whitespace; inside string literals it escapes `"` and `\`, uses
the short escapes for backspace, tab, newline, form feed and carriage
return, writes any other control character below U+0020 as `\u00XX`
with lowercase hex digits, and passes every other character through
verbatim. -/

/-- Lowercase hex digit for `n < 16`. -/
def hexDigit (n : Nat) : Char :=
  if n < 10 then Char.ofNat ('0'.toNat + n) else Char.ofNat ('a'.toNat + n - 10)

/-- serde_json's escaping of one character inside a string literal. -/
def escapeChar (c : Char) : List Char :=
  if c = '"' then ['\\', '"']
  else if c = '\\' then ['\\', '\\']
  else if c = Char.ofNat 8 then ['\\', 'b']
  else if c = '\t' then ['\\', 't']
  else if c = '\n' then ['\\', 'n']
  else if c = Char.ofNat 12 then ['\\', 'f']
  else if c = '\r' then ['\\', 'r']
  else if c.toNat < 32 then
    ['\\', 'u', '0', '0', hexDigit (c.toNat / 16), hexDigit (c.toNat % 16)]
  else [c]

/-- Escape a whole string body. -/
def escapeChars : List Char → List Char
  | [] => []
  | c :: rest => escapeChar c ++ escapeChars rest

/-- A JSON string literal: quote, escaped body, quote. -/
def quoteChars (s : String) : List Char :=
  '"' :: (escapeChars s.data ++ ['"'])

/-- The body of one serialized `Dog` object (after its opening brace):
`"name":…,"breed":…}` with the field values quoted and escaped. -/
def dogBody (d : Dog) : List Char :=
  '"' :: 'n' :: 'a' :: 'm' :: 'e' :: '"' :: ':' ::
    (quoteChars d.name ++
      (',' :: '"' :: 'b' :: 'r' :: 'e' :: 'e' :: 'd' :: '"' :: ':' ::
        (quoteChars d.breed ++ ['\x7d'])))

/-- One serialized `Dog` object. -/
def dogChars (d : Dog) : List Char := '\x7b' :: dogBody d

/-- The serialized elements after the first one: each preceded by a
comma, then the closing bracket. -/
def tailChars : List Dog → List Char
  | [] => [']']
  | d :: tl => ',' :: (dogChars d ++ tailChars tl)

/-- The full serialized array. -/
def dogsChars : List Dog → List Char
  | [] => ['[', ']']
  | d :: tl => '[' :: (dogChars d ++ tailChars tl)

/-- `serde_json::to_string::<Vec<Dog>>`: the compact JSON text of the
serialized collection. -/
def to_string (dogs : List Dog) : String := String.mk (dogsChars dogs)

/-! ### Shared lemmas -/

/-- Serializing one `Dog` and deserializing it gives the dog back. -/
theorem dogFromJson_dogToJson (d : Dog) : dogFromJson (dogToJson d) = .ok d := by
  cases d
  rfl

/-! ### The claims -/

/-- C1: for every file path on which the read fails (e.g. a missing
file), `get_dogs2` and `get_dogs3` both return the file-read variant
`BadFile` wrapping that I/O error — never the parse variant. -/
theorem getDogs_read_failure_is_BadFile (fs : FileSystem) (path : String)
    (e : IoError) (h : read_to_string fs path = .error e) :
    get_dogs2 fs path = .error (BadFile e) ∧
    get_dogs3 fs path = .error (BadFile e) := by
  unfold get_dogs2 get_dogs3
  rw [h]
  exact ⟨rfl, rfl⟩

/-- C1 witness: on a file system with no readable file, both functions
return `BadFile` with the `NotFound` error. -/
theorem getDogs_read_failure_is_BadFile_witness :
    get_dogs2 fsMissing mainPath =
      .error (BadFile ⟨"No such file or directory (os error 2)"⟩) ∧
    get_dogs3 fsMissing mainPath =
      .error (BadFile ⟨"No such file or directory (os error 2)"⟩) :=
  getDogs_read_failure_is_BadFile fsMissing mainPath
    ⟨"No such file or directory (os error 2)"⟩ rfl

/-- C2: for every file path whose file reads successfully but whose
contents fail to deserialize as a `Vec<Dog>`, `get_dogs2` and
`get_dogs3` both return the parse variant `BadJson` wrapping the
serde_json error. -/
theorem getDogs_parse_failure_is_BadJson (fs : FileSystem) (path : String)
    (s : String) (e : JsonError)
    (hr : read_to_string fs path = .ok s) (hp : from_str s = .error e) :
    get_dogs2 fs path = .error (BadJson e) ∧
    get_dogs3 fs path = .error (BadJson e) := by
  unfold get_dogs2 get_dogs3
  rw [hr]
  dsimp only
  rw [hp]
  exact ⟨rfl, rfl⟩

/-- C2 witness: a readable file holding the non-JSON text `oops` makes
both functions return `BadJson`. -/
theorem getDogs_parse_failure_is_BadJson_witness :
    get_dogs2 fsBadJson mainPath = .error (BadJson ⟨"expected value"⟩) ∧
    get_dogs3 fsBadJson mainPath = .error (BadJson ⟨"expected value"⟩) :=
  getDogs_parse_failure_is_BadJson fsBadJson mainPath "oops"
    ⟨"expected value"⟩ rfl rfl

/-- C5: on every file system and path, `get_dogs2` and `get_dogs3`
return identical results, and `get_dogs1` returns exactly their result
with the `GetDogsError` classification stripped down to the boxed
lower-level error: all three succeed on the same inputs with the same
dogs, fail on the same inputs, and carry the same underlying error. -/
theorem getDogs_variants_equivalent (fs : FileSystem) (path : String) :
    get_dogs2 fs path = get_dogs3 fs path ∧
    get_dogs1 fs path = (get_dogs2 fs path).mapError GetDogsError.boxed := by
  unfold get_dogs1 get_dogs2 get_dogs3
  cases read_to_string fs path with
  | error e => exact ⟨rfl, rfl⟩
  | ok json =>
    dsimp only
    cases from_str json with
    | error e => exact ⟨rfl, rfl⟩
    | ok dogs => exact ⟨rfl, rfl⟩

/-- C9: the `source` method of `GetDogsError` never returns `None`: for
each variant it returns `Some` of exactly the wrapped lower-level
error. -/
theorem getDogsError_source_never_none (e : GetDogsError) :
    GetDogsError.source e ≠ none ∧
    (∀ io, e = BadFile io → GetDogsError.source e = some (Sum.inl io)) ∧
    (∀ je, e = BadJson je → GetDogsError.source e = some (Sum.inr je)) := by
  cases e with
  | BadFile io =>
    refine ⟨by simp [GetDogsError.source], ?_, ?_⟩
    · intro io' h
      cases h
      rfl
    · intro je h
      cases h
  | BadJson je =>
    refine ⟨by simp [GetDogsError.source], ?_, ?_⟩
    · intro io' h
      cases h
    · intro je' h
      cases h
      rfl

/-- C9 witness: `source` on a concrete `BadFile` value. -/
theorem getDogsError_source_never_none_witness :
    GetDogsError.source (BadFile ⟨"nf"⟩) = some (Sum.inl ⟨"nf"⟩) :=
  (getDogsError_source_never_none (BadFile ⟨"nf"⟩)).2.1 ⟨"nf"⟩ rfl

/-- Value-level round trip: the derived `Deserialize` impl inverts the
derived `Serialize` impl on the JSON values themselves. -/
theorem dogs_roundtrip (dogs : List Dog) :
    dogsFromJson (dogsToJson dogs) = .ok dogs := by
  induction dogs with
  | nil => rfl
  | cons d rest ih =>
    show dogListFromJson (dogToJson d :: rest.map dogToJson) = .ok (d :: rest)
    unfold dogListFromJson
    rw [dogFromJson_dogToJson]
    have ih' : dogListFromJson (rest.map dogToJson) = .ok rest := ih
    rw [ih']

/-- The field loop returns `ok ⟨n, b⟩` whenever each slot either already
holds its value (and the key does not reappear) or the key lies ahead
with a string value, with no repeated key overall. -/
theorem readDogFields_found (fields : List (String × Json)) :
    ∀ (na ba : Option String) (n b : String),
      (fields.map Prod.fst).Nodup →
      SlotSpec "name" na fields n →
      SlotSpec "breed" ba fields b →
      readDogFields fields na ba = .ok ⟨n, b⟩ := by
  induction fields with
  | nil =>
    intro na ba n b _ hn hb
    rcases hn with ⟨hna, -⟩ | ⟨-, hnl⟩
    · rcases hb with ⟨hba, -⟩ | ⟨-, hbl⟩
      · rw [hna, hba]
        rfl
      · exact absurd hbl (by simp [lookupField])
    · exact absurd hnl (by simp [lookupField])
  | cons hd tl ih =>
    obtain ⟨k, v⟩ := hd
    intro na ba n b hnd hn hb
    have hnd0 : k ∉ tl.map Prod.fst ∧ (tl.map Prod.fst).Nodup := by
      simpa [List.nodup_cons] using hnd
    by_cases hk : k = "name"
    · subst hk
      rcases hn with ⟨-, hnin⟩ | ⟨hna, hnl⟩
      · exact absurd (by simp) hnin
      · have hv : v = Json.str n := by simpa [lookupField] using hnl
        subst hv
        rw [hna]
        have hb' : SlotSpec "breed" ba tl b := by
          rcases hb with ⟨hba, hbin⟩ | ⟨hba, hbl⟩
          · exact Or.inl ⟨hba, fun h => hbin (by simp [h])⟩
          · exact Or.inr ⟨hba, by simpa [lookupField] using hbl⟩
        have hrec := ih (some n) ba n b hnd0.2 (Or.inl ⟨rfl, hnd0.1⟩) hb'
        simpa [readDogFields] using hrec
    · by_cases hk2 : k = "breed"
      · subst hk2
        rcases hb with ⟨-, hbin⟩ | ⟨hba, hbl⟩
        · exact absurd (by simp) hbin
        · have hv : v = Json.str b := by simpa [lookupField] using hbl
          subst hv
          rw [hba]
          have hn' : SlotSpec "name" na tl n := by
            rcases hn with ⟨hna, hnin⟩ | ⟨hna, hnl⟩
            · exact Or.inl ⟨hna, fun h => hnin (by simp [h])⟩
            · exact Or.inr ⟨hna, by simpa [lookupField, hk] using hnl⟩
          have hrec := ih na (some b) n b hnd0.2 hn' (Or.inl ⟨rfl, hnd0.1⟩)
          simpa [readDogFields, hk] using hrec
      · have hn' : SlotSpec "name" na tl n := by
          rcases hn with ⟨hna, hnin⟩ | ⟨hna, hnl⟩
          · exact Or.inl ⟨hna, fun h => hnin (by simp [h])⟩
          · exact Or.inr ⟨hna, by simpa [lookupField, hk] using hnl⟩
        have hb' : SlotSpec "breed" ba tl b := by
          rcases hb with ⟨hba, hbin⟩ | ⟨hba, hbl⟩
          · exact Or.inl ⟨hba, fun h => hbin (by simp [h])⟩
          · exact Or.inr ⟨hba, by simpa [lookupField, hk2] using hbl⟩
        have hrec := ih na ba n b hnd0.2 hn' hb'
        simpa [readDogFields, hk, hk2] using hrec

/-- An object with distinct keys whose `name` and `breed` fields are the
strings `n` and `b` deserializes to the dog `⟨n, b⟩`. -/
theorem dogFromJson_wellformed (fields : List (String × Json)) (n b : String)
    (hnd : (fields.map Prod.fst).Nodup)
    (hn : lookupField "name" fields = some (.str n))
    (hb : lookupField "breed" fields = some (.str b)) :
    dogFromJson (.obj fields) = .ok ⟨n, b⟩ :=
  readDogFields_found fields none none n b hnd
    (Or.inr ⟨rfl, hn⟩) (Or.inr ⟨rfl, hb⟩)

/-- A list of well-formed dog objects deserializes to a list of dogs of
the same length whose fields match element-wise. -/
theorem dogListFromJson_wellformed (objs : List Json)
    (h : ∀ j ∈ objs, WellFormedDogObj j) :
    ∃ ds, dogListFromJson objs = .ok ds ∧ ds.length = objs.length ∧
      List.Forall₂ DogMatches objs ds := by
  induction objs with
  | nil => exact ⟨[], rfl, rfl, List.Forall₂.nil⟩
  | cons j rest ih =>
    obtain ⟨fields, n, b, hj, hnd, hn, hb⟩ := h j (by simp)
    obtain ⟨ds, hds, hlen, hfa⟩ := ih fun x hx => h x (by simp [hx])
    refine ⟨⟨n, b⟩ :: ds, ?_, by simp [hlen], ?_⟩
    · subst hj
      simp [dogListFromJson, dogFromJson_wellformed fields n b hnd hn hb, hds]
    · refine List.Forall₂.cons ?_ hfa
      subst hj
      exact ⟨by simp [fieldValue, hn], by simp [fieldValue, hb]⟩

/-- C3: whenever the file reads successfully and its text parses as a
JSON array of well-formed dog objects, all three `get_dogs` variants
return `Ok` with a vector of the same length as the array whose i-th
dog's `name` and `breed` equal the corresponding fields of the i-th
object. -/
theorem getDogs_wellformed_ok (fs : FileSystem) (path s : String)
    (objs : List Json)
    (hr : read_to_string fs path = .ok s)
    (hp : parseJson s = .ok (.arr objs))
    (hw : ∀ j ∈ objs, WellFormedDogObj j) :
    ∃ ds, get_dogs1 fs path = .ok ds ∧ get_dogs2 fs path = .ok ds ∧
      get_dogs3 fs path = .ok ds ∧ ds.length = objs.length ∧
      List.Forall₂ DogMatches objs ds := by
  obtain ⟨ds, hds, hlen, hfa⟩ := dogListFromJson_wellformed objs hw
  have hfs : from_str s = .ok ds := by
    simp [from_str, hp, dogsFromJson, hds]
  refine ⟨ds, ?_, ?_, ?_, hlen, hfa⟩
  · unfold get_dogs1
    rw [hr]
    dsimp only
    rw [hfs]
  · unfold get_dogs2
    rw [hr]
    dsimp only
    rw [hfs]
  · unfold get_dogs3
    rw [hr]
    dsimp only
    rw [hfs]

/-- C3 witness: a concrete well-formed dogs file yields the parsed
vector through each variant. -/
theorem getDogs_wellformed_ok_witness :
    get_dogs1 fsGood mainPath = .ok [Dog.mk "Rex" "Lab"] ∧
    get_dogs2 fsGood mainPath = .ok [Dog.mk "Rex" "Lab"] ∧
    get_dogs3 fsGood mainPath = .ok [Dog.mk "Rex" "Lab"] := by
  obtain ⟨ds, h1, h2, h3, -, -⟩ :=
    getDogs_wellformed_ok fsGood mainPath goodJsonText
      [Json.obj [("name", Json.str "Rex"), ("breed", Json.str "Lab")]]
      rfl rfl
      (by
        intro j hj
        simp only [List.mem_singleton] at hj
        subst hj
        exact ⟨_, "Rex", "Lab", rfl, by simp, rfl, rfl⟩)
  have hv : get_dogs3 fsGood mainPath = .ok [Dog.mk "Rex" "Lab"] := rfl
  have hds : Except.ok (ε := GetDogsError) ds = .ok [Dog.mk "Rex" "Lab"] :=
    h3.symm.trans hv
  exact ⟨h1.trans (by injection hds with h; rw [h]), h2.trans hds, h3.trans hds⟩

/-- If `name` is absent from the remaining fields and its slot is empty,
the field loop never succeeds. -/
theorem readDogFields_missing_name (fields : List (String × Json)) :
    ∀ ba : Option String, "name" ∉ fields.map Prod.fst →
      ∀ d, readDogFields fields none ba ≠ .ok d := by
  induction fields with
  | nil =>
    intro ba _ d
    cases ba <;> simp [readDogFields]
  | cons hd tl ih =>
    obtain ⟨k, v⟩ := hd
    intro ba hmem d
    have hk : ¬ k = "name" := fun h => hmem (by simp [h])
    have htl : "name" ∉ tl.map Prod.fst := fun h => hmem (by simp [h])
    by_cases hk2 : k = "breed"
    · subst hk2
      cases ba with
      | some x => simp [readDogFields]
      | none =>
        cases v with
        | str s => simpa [readDogFields] using ih (some s) htl d
        | null => simp [readDogFields]
        | bool x => simp [readDogFields]
        | num x => simp [readDogFields]
        | arr x => simp [readDogFields]
        | obj x => simp [readDogFields]
    · simpa [readDogFields, hk, hk2] using ih ba htl d

/-- If `breed` is absent from the remaining fields and its slot is
empty, the field loop never succeeds. -/
theorem readDogFields_missing_breed (fields : List (String × Json)) :
    ∀ na : Option String, "breed" ∉ fields.map Prod.fst →
      ∀ d, readDogFields fields na none ≠ .ok d := by
  induction fields with
  | nil =>
    intro na _ d
    cases na <;> simp [readDogFields]
  | cons hd tl ih =>
    obtain ⟨k, v⟩ := hd
    intro na hmem d
    have hk : ¬ k = "breed" := fun h => hmem (by simp [h])
    have htl : "breed" ∉ tl.map Prod.fst := fun h => hmem (by simp [h])
    by_cases hk2 : k = "name"
    · subst hk2
      cases na with
      | some x => simp [readDogFields]
      | none =>
        cases v with
        | str s => simpa [readDogFields] using ih (some s) htl d
        | null => simp [readDogFields]
        | bool x => simp [readDogFields]
        | num x => simp [readDogFields]
        | arr x => simp [readDogFields]
        | obj x => simp [readDogFields]
    · simpa [readDogFields, hk, hk2] using ih na htl d

/-- An object lacking the `name` field or the `breed` field never
deserializes to a `Dog`. -/
theorem dogFromJson_missing_field (fields : List (String × Json))
    (h : "name" ∉ fields.map Prod.fst ∨ "breed" ∉ fields.map Prod.fst) :
    ∀ d, dogFromJson (.obj fields) ≠ .ok d := by
  intro d
  rcases h with h | h
  · simpa [dogFromJson] using readDogFields_missing_name fields none h d
  · simpa [dogFromJson] using readDogFields_missing_breed fields none h d

/-- If some element of the array fails to deserialize, the whole array
fails. -/
theorem dogListFromJson_elem_fails (objs : List Json) (j : Json)
    (hfail : ∀ d, dogFromJson j ≠ .ok d) :
    j ∈ objs → ∀ ds, dogListFromJson objs ≠ .ok ds := by
  induction objs with
  | nil =>
    intro hj
    simp at hj
  | cons x rest ih =>
    intro hj ds hds
    rcases List.mem_cons.mp hj with rfl | hmem
    · cases hdj : dogFromJson j with
      | error e => simp [dogListFromJson, hdj] at hds
      | ok d => exact hfail d hdj
    · cases hdx : dogFromJson x with
      | error e => simp [dogListFromJson, hdx] at hds
      | ok d =>
        cases hrest : dogListFromJson rest with
        | error e => simp [dogListFromJson, hdx, hrest] at hds
        | ok ds' => exact ih hmem ds' hrest

/-- C7: a successful parse can only produce records with both text
fields (a `Dog` has both by construction); dually, a JSON array
containing an object without a `name` field or without a `breed` field
never parses successfully, and `get_dogs3` classifies the failure as the
parse variant `BadJson`. -/
theorem getDogs_missing_field_fails (fs : FileSystem) (path s : String)
    (objs : List Json) (j : Json) (fields : List (String × Json))
    (hr : read_to_string fs path = .ok s)
    (hp : parseJson s = .ok (.arr objs))
    (hj : j ∈ objs) (hobj : j = .obj fields)
    (hmiss : "name" ∉ fields.map Prod.fst ∨ "breed" ∉ fields.map Prod.fst) :
    ∃ e, from_str s = .error e ∧ get_dogs3 fs path = .error (BadJson e) := by
  have hfail : ∀ d, dogFromJson j ≠ .ok d := by
    subst hobj
    exact dogFromJson_missing_field fields hmiss
  have hlist := dogListFromJson_elem_fails objs j hfail hj
  cases hds : dogListFromJson objs with
  | ok ds => exact absurd hds (hlist ds)
  | error e =>
    have hfs : from_str s = .error e := by
      simp [from_str, hp, dogsFromJson, hds]
    refine ⟨e, hfs, ?_⟩
    unfold get_dogs3
    rw [hr]
    dsimp only
    rw [hfs]
    rfl

/-- C7 witness: a file holding `[{"name":"Rex"}]` (no `breed`) fails to
parse with a missing-field error, classified as `BadJson`. -/
theorem getDogs_missing_field_fails_witness :
    from_str "[\x7b\"name\":\"Rex\"\x7d]" =
      .error ⟨"missing field `breed`"⟩ ∧
    get_dogs3 fsMissingField mainPath =
      .error (BadJson ⟨"missing field `breed`"⟩) := by
  obtain ⟨e, h1, h2⟩ :=
    getDogs_missing_field_fails fsMissingField mainPath
      "[\x7b\"name\":\"Rex\"\x7d]"
      [Json.obj [("name", Json.str "Rex")]]
      (Json.obj [("name", Json.str "Rex")])
      [("name", Json.str "Rex")]
      rfl rfl (by simp) rfl
      (Or.inr (by simp))
  have hv : from_str "[\x7b\"name\":\"Rex\"\x7d]" =
      .error ⟨"missing field `breed`"⟩ := rfl
  have he : e = ⟨"missing field `breed`"⟩ := by
    have := h1.symm.trans hv
    injection this
  subst he
  exact ⟨hv, h2⟩

/-- With distinct keys, object lookup finds any present binding. -/
theorem lookupField_of_mem (fields : List (String × Json)) (k : String)
    (v : Json) (hnd : (fields.map Prod.fst).Nodup) (hmem : (k, v) ∈ fields) :
    lookupField k fields = some v := by
  induction fields with
  | nil => simp at hmem
  | cons hd tl ih =>
    obtain ⟨k', v'⟩ := hd
    have hnd0 : k' ∉ tl.map Prod.fst ∧ (tl.map Prod.fst).Nodup := by
      simpa [List.nodup_cons] using hnd
    rcases List.mem_cons.mp hmem with heq | hmem'
    · injection heq with h1 h2
      subst h1
      subst h2
      simp [lookupField]
    · have hne : ¬ k' = k := by
        intro h
        subst h
        exact hnd0.1 (by simpa using List.mem_map_of_mem Prod.fst hmem')
      simp [lookupField, hne, ih hnd0.2 hmem']

/-- C10: deserialization tolerates extra fields — every JSON array whose
objects bind `name` and `breed` to strings (with distinct keys), along
with arbitrary additional fields, deserializes successfully, the extra
fields being ignored: each resulting dog carries exactly the `name` and
`breed` values of its object. -/
theorem dogsFromJson_ignores_extra_fields (objs : List Json)
    (h : ∀ j ∈ objs, ∃ fields n b, j = Json.obj fields ∧
        (fields.map Prod.fst).Nodup ∧ ("name", Json.str n) ∈ fields ∧
        ("breed", Json.str b) ∈ fields) :
    ∃ ds, dogsFromJson (.arr objs) = .ok ds ∧
      List.Forall₂ DogMatches objs ds := by
  have hw : ∀ j ∈ objs, WellFormedDogObj j := by
    intro j hj
    obtain ⟨fields, n, b, hj', hnd, hn, hb⟩ := h j hj
    exact ⟨fields, n, b, hj', hnd,
      lookupField_of_mem fields "name" (.str n) hnd hn,
      lookupField_of_mem fields "breed" (.str b) hnd hb⟩
  obtain ⟨ds, hds, -, hfa⟩ := dogListFromJson_wellformed objs hw
  exact ⟨ds, by simpa [dogsFromJson] using hds, hfa⟩

/-- C10 witness: an object carrying `age` and `color` fields besides
`name` and `breed` deserializes to just the dog. -/
theorem dogsFromJson_ignores_extra_fields_witness :
    dogsFromJson (.arr [Json.obj [("age", Json.num 3),
      ("name", Json.str "Rex"), ("color", Json.str "tan"),
      ("breed", Json.str "Lab")]]) = .ok [Dog.mk "Rex" "Lab"] := by
  obtain ⟨ds, hds, -⟩ :=
    dogsFromJson_ignores_extra_fields
      [Json.obj [("age", Json.num 3), ("name", Json.str "Rex"),
        ("color", Json.str "tan"), ("breed", Json.str "Lab")]]
      (by
        intro j hj
        simp only [List.mem_singleton] at hj
        subst hj
        exact ⟨_, "Rex", "Lab", rfl, by simp, by simp, by simp⟩)
  have hv : dogsFromJson (.arr [Json.obj [("age", Json.num 3),
      ("name", Json.str "Rex"), ("color", Json.str "tan"),
      ("breed", Json.str "Lab")]]) = .ok [Dog.mk "Rex" "Lab"] := rfl
  exact hds.trans (hds.symm.trans hv)

/-- C4 counterexample: with `./dogs.json` holding the non-JSON text
`oops`, the program's one stderr line is `bad json: expected value` —
not the `bad JSON: expected value` the claim prescribes (`main` formats
its own lowercase prefix instead of using the `Display` impl). -/
theorem main_stderr_prefix_counterexample :
    stderrList fsBadJson = ["bad json: expected value"] ∧
    ("bad json: expected value" : String) ≠ "bad JSON: expected value" :=
  ⟨rfl, by decide⟩

/-- C4 amended: whenever the program fails it prints exactly one
human-readable message on standard error — `bad file: …` for a
file-read failure and `bad json: …` (lowercase, unlike the unused
`Display` impl's `bad JSON: …`) for a parse failure, `…` being the
underlying error's text — and the two ten-character prefixes are
distinct, so the prefix alone determines which error kind occurred. -/
theorem main_stderr_messages (fs : FileSystem) :
    (∀ e, read_to_string fs mainPath = .error e →
      stderrList fs = ["bad file: " ++ e.message]) ∧
    (∀ s e, read_to_string fs mainPath = .ok s → from_str s = .error e →
      stderrList fs = ["bad json: " ++ e.message]) ∧
    (∀ s t : String,
      ("bad file: " ++ s).data.take 10 ≠ ("bad json: " ++ t).data.take 10) := by
  refine ⟨?_, ?_, ?_⟩
  · intro e h
    simp [stderrList, mainTrace, h]
  · intro s e hr hp
    simp [stderrList, mainTrace, hr, hp]
  · intro s t h
    have h1 : ("bad file: " ++ s).data = "bad file: ".data ++ s.data := rfl
    have h2 : ("bad json: " ++ t).data = "bad json: ".data ++ t.data := rfl
    have l1 : ("bad file: ".data ++ s.data).take 10 = "bad file: ".data := by
      have hlen : ("bad file: ".data).length = 10 := rfl
      rw [← hlen, List.take_left]
    have l2 : ("bad json: ".data ++ t.data).take 10 = "bad json: ".data := by
      have hlen : ("bad json: ".data).length = 10 := rfl
      rw [← hlen, List.take_left]
    rw [h1, h2, l1, l2] at h
    exact absurd h (by decide)

/-- C4 amended witness: the file-read-failure message on a file system
with no readable file. -/
theorem main_stderr_messages_witness :
    stderrList fsMissing =
      ["bad file: " ++ "No such file or directory (os error 2)"] :=
  (main_stderr_messages fsMissing).1
    ⟨"No such file or directory (os error 2)"⟩ rfl

/-- C8: whenever `get_dogs3` fails on the hardcoded path, the run of
`main` performs exactly one read and at most one parse attempt (no
retry), prints exactly one message, on stderr and nothing on stdout,
never panics, and its event trace is finite by construction (the program
reports and terminates normally). -/
theorem main_error_single_report (fs : FileSystem) (err : GetDogsError)
    (h : get_dogs3 fs mainPath = .error err) :
    readList fs = [mainPath] ∧
    parseAttempts fs ≤ 1 ∧
    (stderrList fs).length = 1 ∧
    stdoutList fs = [] ∧
    Event.panicked ∉ mainTrace fs := by
  cases hr : read_to_string fs mainPath with
  | error io =>
    refine ⟨?_, ?_, ?_, ?_, ?_⟩ <;>
      simp [readList, parseAttempts, stderrList, stdoutList, mainTrace, hr]
  | ok s =>
    cases hp : from_str s with
    | ok dogs =>
      unfold get_dogs3 at h
      rw [hr] at h
      dsimp only at h
      rw [hp] at h
      exact absurd h (by simp)
    | error e =>
      refine ⟨?_, ?_, ?_, ?_, ?_⟩ <;>
        simp [readList, parseAttempts, stderrList, stdoutList, mainTrace,
          hr, hp]

/-- C8 witness: the error run on a file system with no readable file. -/
theorem main_error_single_report_witness :
    readList fsMissing = [mainPath] ∧
    parseAttempts fsMissing ≤ 1 ∧
    (stderrList fsMissing).length = 1 ∧
    stdoutList fsMissing = [] ∧
    Event.panicked ∉ mainTrace fsMissing :=
  main_error_single_report fsMissing
    (BadFile ⟨"No such file or directory (os error 2)"⟩) rfl

/-- `hexVal` decodes what `hexDigit` encodes. -/
theorem hexVal_hexDigit : ∀ n, n < 16 → hexVal (hexDigit n) = some n := by
  decide

/-- The string reader is a left inverse of the escaper: reading an
escaped body up to the closing quote recovers the original characters
and leaves the rest of the input untouched. -/
theorem takeString_escapeChars (cs : List Char) :
    ∀ rest, takeString (escapeChars cs ++ '"' :: rest) = .ok (cs, rest) := by
  induction cs with
  | nil => intro rest; rfl
  | cons c cs ih =>
    intro rest
    have h00 : hexVal '0' = some 0 := rfl
    by_cases h1 : c = '"'
    · subst h1
      simp [escapeChars, escapeChar, takeString, takeEscape, escDecode, ih]
    · by_cases h2 : c = '\\'
      · subst h2
        simp [escapeChars, escapeChar, takeString, takeEscape, escDecode, ih]
      · by_cases h3 : c = Char.ofNat 8
        · subst h3
          simp [escapeChars, escapeChar, takeString, takeEscape, escDecode, ih]
        · by_cases h4 : c = '\t'
          · subst h4
            simp [escapeChars, escapeChar, takeString, takeEscape, escDecode, ih]
          · by_cases h5 : c = '\n'
            · subst h5
              simp [escapeChars, escapeChar, takeString, takeEscape, escDecode, ih]
            · by_cases h6 : c = Char.ofNat 12
              · subst h6
                simp [escapeChars, escapeChar, takeString, takeEscape, escDecode, ih]
              · by_cases h7 : c = '\r'
                · subst h7
                  simp [escapeChars, escapeChar, takeString, takeEscape, escDecode, ih]
                · by_cases h8 : c.toNat < 32
                  · have hhi : hexVal (hexDigit (c.toNat / 16)) =
                        some (c.toNat / 16) := hexVal_hexDigit _ (by omega)
                    have hlo : hexVal (hexDigit (c.toNat % 16)) =
                        some (c.toNat % 16) := hexVal_hexDigit _ (by omega)
                    have harith : c.toNat / 16 * 16 + c.toNat % 16 =
                        c.toNat := by omega
                    have hcond : c.toNat < 55296 ∨
                        (57344 ≤ c.toNat ∧ c.toNat < 1114112) :=
                      Or.inl (by omega)
                    simp [escapeChars, escapeChar, h1, h2, h3, h4, h5, h6, h7,
                      h8, takeString, takeEscape, h00, hhi, hlo, harith, hcond,
                      Char.ofNat_toNat, ih]
                  · simp [escapeChars, escapeChar, h1, h2, h3, h4, h5, h6, h7,
                      h8, takeString, ih]

/-- The parser recovers a serialized string literal exactly. -/
theorem parseValue_quoted (sd : List Char) (fuel : Nat) (rest : List Char) :
    parseValue (fuel + 1) ('"' :: (escapeChars sd ++ '"' :: rest)) =
      .ok (.str (String.mk sd), rest) := by
  simp [parseValue, skipWs, isJsonWs, takeString_escapeChars]

/-- Rebuilding a string from its characters is the identity. -/
theorem string_mk_data (s : String) : String.mk s.data = s := rfl

/-- The parser recovers one serialized `Dog` object exactly. -/
theorem parseValue_dog (d : Dog) (g : Nat) (rest : List Char) :
    parseValue (g + 4) ('\x7b' :: (dogBody d ++ rest)) =
      .ok (dogToJson d, rest) := by
  have hname : String.mk ['n', 'a', 'm', 'e'] = "name" := rfl
  have hbreed : String.mk ['b', 'r', 'e', 'e', 'd'] = "breed" := rfl
  simp [parseValue, parseMembers, skipWs, isJsonWs, dogBody, quoteChars,
    takeString, parseValue_quoted, takeString_escapeChars, string_mk_data,
    dogToJson, hname, hbreed]

/-- The parser recovers a serialized, comma-separated run of dogs up to
and including the closing bracket, given fuel beyond the element
count. -/
theorem parseElements_dogs (tl : List Dog) :
    ∀ (d : Dog) (fuel : Nat) (rest : List Char),
      parseElements (fuel + tl.length + 5)
        ('\x7b' :: (dogBody d ++ (tailChars tl ++ rest))) =
      .ok ((d :: tl).map dogToJson, rest) := by
  induction tl with
  | nil =>
    intro d fuel rest
    simp [parseElements, tailChars, parseValue_dog, skipWs, isJsonWs]
  | cons t tl ih =>
    intro d fuel rest
    have hlen : fuel + (t :: tl).length + 5 = (fuel + tl.length + 5) + 1 := by
      simp only [List.length_cons]
      omega
    rw [hlen, parseElements]
    simp [parseValue_dog, tailChars, dogChars, skipWs, isJsonWs, ih]

/-- The serialized tail of a dog list is at least as long as the list. -/
theorem tailChars_length (tl : List Dog) : tl.length ≤ (tailChars tl).length := by
  induction tl with
  | nil => simp [tailChars]
  | cons d tl ih =>
    simp only [tailChars, dogChars, List.length_cons, List.length_append]
    omega

/-- C6: round-trip through JSON text — serializing any list of `Dog`
records to a JSON string (derived `Serialize` impl, serde_json compact
writer with escaping) and deserializing that string back with
`from_str`, the exact deserialization `get_dogs` uses (textual parse
included), yields the original list. -/
theorem from_str_to_string (dogs : List Dog) :
    from_str (to_string dogs) = .ok dogs := by
  cases dogs with
  | nil => rfl
  | cons d tl =>
    have hdata : (to_string (d :: tl)).data =
        '[' :: '\x7b' :: (dogBody d ++ tailChars tl) := by
      simp [to_string, dogsChars, dogChars]
    have hlen2 : tl.length + 5 ≤ 2 * (to_string (d :: tl)).length + 7 := by
      have h1 := tailChars_length tl
      have h2 : (to_string (d :: tl)).length =
          ((to_string (d :: tl)).data).length := rfl
      rw [h2, hdata]
      simp only [List.length_cons, List.length_append]
      omega
    obtain ⟨g, hg⟩ : ∃ g,
        2 * (to_string (d :: tl)).length + 7 = g + tl.length + 5 :=
      ⟨2 * (to_string (d :: tl)).length + 7 - (tl.length + 5), by omega⟩
    have hfuel : 2 * (to_string (d :: tl)).length + 8 =
        (g + tl.length + 5) + 1 := by omega
    have hel := parseElements_dogs tl d g []
    simp only [List.append_nil] at hel
    have hparse : parseValue (2 * (to_string (d :: tl)).length + 8)
        ((to_string (d :: tl)).data) =
        .ok (.arr ((d :: tl).map dogToJson), []) := by
      rw [hfuel, hdata, parseValue]
      simp [skipWs, isJsonWs, hel]
    have hr : dogListFromJson ((d :: tl).map dogToJson) = .ok (d :: tl) := by
      simpa [dogsFromJson, dogsToJson] using dogs_roundtrip (d :: tl)
    simp only [List.map_cons] at hr
    unfold from_str parseJson
    rw [hparse]
    simp [skipWs, dogsFromJson, hr]
